import Mathlib

/-!
Verification of the PubMed scraper core (`pubmed_scraper/core/utils.py`,
`pubmed_scraper/core/parser.py`, `pubmed_scraper/config.py`).

Strings are modelled as `List Char`.  Python's `str.lower` is modelled by
`Char.toLower` (ASCII case mapping; all keyword matching in the source is over
ASCII keyword lists).  Python's default `str.strip` whitespace set is modelled
by the six ASCII whitespace characters.  Regular-expression word characters
(`\w`) are modelled as ASCII alphanumerics plus underscore.
-/

/-- The ASCII whitespace characters stripped by Python's `str.strip()`. -/
def isPyWhitespace (c : Char) : Bool :=
  c = ' ' || c = '\t' || c = '\n' || c = '\x0b' || c = '\x0c' || c = '\r'

/-- Python `s.strip()`: drop leading and trailing whitespace. -/
def pyStrip (s : List Char) : List Char :=
  ((s.dropWhile isPyWhitespace).reverse.dropWhile isPyWhitespace).reverse

/-- Python `s.lower()` (ASCII case mapping). -/
def lowerChars (s : List Char) : List Char :=
  s.map Char.toLower

/-- Python substring test `needle in haystack`. -/
def containsSub (needle : List Char) : List Char → Bool
  | [] => needle.isEmpty
  | c :: rest => needle.isPrefixOf (c :: rest) || containsSub needle rest

/-- Regex word character `\w` (ASCII): letters, digits, underscore. -/
def isWordChar (c : Char) : Bool :=
  c.isAlphanum || c = '_'

/-- Wordness of an optional neighbouring character; out-of-string is non-word. -/
def wordOpt : Option Char → Bool
  | none => false
  | some c => isWordChar c

/-- One position of a `\b token \b` regex match: the token `w` (consisting of
word characters only) is a prefix of `s`, the character before `s` (if any) is
not a word character, and the character after the matched prefix (if any) is
not a word character. -/
def boundaryMatchAt (w : List Char) (prev : Option Char) (s : List Char) : Bool :=
  !(wordOpt prev) && w.isPrefixOf s &&
    (match s.drop w.length with
     | [] => true
     | c :: _ => !isWordChar c)

/-- Scan of `re.search` for pattern `\b w \b` over the tail positions of a
string, carrying the previous character for the boundary test. -/
def containsWordAux (w : List Char) (prev : Option Char) : List Char → Bool
  | [] => boundaryMatchAt w prev []
  | c :: rest => boundaryMatchAt w prev (c :: rest) || containsWordAux w (some c) rest

/-- `re.search(r'\b' + w + r'\b', s) is not None` for a word-character token `w`. -/
def containsWord (w s : List Char) : Bool :=
  containsWordAux w none s

/-- `ACADEMIC_KEYWORDS` from `pubmed_scraper/config.py`. -/
def ACADEMIC_KEYWORDS : List (List Char) :=
  ["university".data, "college".data, "school".data, "institute".data,
   "faculty".data, "department".data, "hospital".data, "clinic".data,
   "medical center".data, "research center".data, "academic".data,
   "campus".data, "laboratory".data, "lab".data, "centre".data,
   "institut".data, "universidad".data, "universit√©".data]

/-- `PHARMA_BIOTECH_KEYWORDS` from `pubmed_scraper/config.py`. -/
def PHARMA_BIOTECH_KEYWORDS : List (List Char) :=
  ["pharmaceutical".data, "pharma".data, "biotech".data, "biotechnology".data,
   "drug".data, "therapeutics".data, "medicines".data, "biopharmaceutical".data,
   "inc".data, "ltd".data, "llc".data, "corp".data, "corporation".data,
   "company".data, "ag".data, "gmbh".data, "sa".data, "plc".data]

/-- The `corporate_indicators` list from `is_non_academic_affiliation`. -/
def corporate_indicators : List (List Char) :=
  ["inc".data, "ltd".data, "llc".data, "corp".data, "corporation".data,
   "company".data, "ag".data, "gmbh".data, "sa".data, "plc".data]

/-- `any(keyword in affiliation_lower for keyword in ACADEMIC_KEYWORDS)`. -/
def has_academic_keywords (al : List Char) : Bool :=
  ACADEMIC_KEYWORDS.any (fun k => containsSub k al)

/-- `any(keyword in affiliation_lower for keyword in PHARMA_BIOTECH_KEYWORDS)`. -/
def has_pharma_keywords (al : List Char) : Bool :=
  PHARMA_BIOTECH_KEYWORDS.any (fun k => containsSub k al)

/-- `any(indicator in affiliation_lower for indicator in corporate_indicators)`:
plain substring containment, not word-boundary matched. -/
def has_corporate_indicator (al : List Char) : Bool :=
  corporate_indicators.any (fun k => containsSub k al)

/-- The `corporate_patterns` regex alternation groups from
`is_non_academic_affiliation`, each `\b(w1|w2|...)\b`. -/
def corporate_patterns : List (List (List Char)) :=
  [["inc".data, "ltd".data, "llc".data, "corp".data, "corporation".data, "company".data],
   ["ag".data, "gmbh".data, "sa".data, "plc".data],
   ["pharmaceutical".data, "pharma".data, "biotech".data, "biotechnology".data],
   ["drug".data, "therapeutics".data, "medicines".data]]

/-- `any(re.search(pattern, affiliation_lower) for pattern in corporate_patterns)`. -/
def has_corporate_pattern (al : List Char) : Bool :=
  corporate_patterns.any (fun grp => grp.any (fun w => containsWord w al))

/-- `is_non_academic_affiliation` from `pubmed_scraper/core/utils.py`.
`if not affiliation or not affiliation.strip(): return False` is the
`pyStrip affiliation = []` branch (an empty string also strips to empty). -/
def is_non_academic_affiliation (affiliation : List Char) : Bool :=
  if pyStrip affiliation = [] then false
  else
    let al := lowerChars affiliation
    if has_academic_keywords al then
      if has_pharma_keywords al then has_corporate_indicator al
      else false
    else has_pharma_keywords al || has_corporate_pattern al

/-- From the spec's words (for comparison with the source): the string contains
at least one corporate-suffix token "as a standalone word, word-boundary
matched". -/
def spec_standalone_corporate_suffix (al : List Char) : Bool :=
  corporate_indicators.any (fun k => containsWord k al)

/-! ### The email extractor (`extract_emails` in `pubmed_scraper/core/utils.py`) -/

/-- Character class `[A-Za-z0-9._%+-]` (local part of the email pattern). -/
def localChar (c : Char) : Bool :=
  c.isAlphanum || c = '.' || c = '_' || c = '%' || c = '+' || c = '-'

/-- Character class `[A-Za-z0-9.-]` (domain part of the email pattern). -/
def domainChar (c : Char) : Bool :=
  c.isAlphanum || c = '.' || c = '-'

/-- Character class `[A-Z|a-z]` (final part of the email pattern; the `|`
inside the class is a literal character, reproduced faithfully). -/
def tldChar (c : Char) : Bool :=
  c.isAlpha || c = '|'

/-- The list `[n, n-1, ..., 1]`: the order in which a greedy `+` or `{2,}`
quantifier tries candidate lengths when backtracking. -/
def downFrom : Nat → List Nat
  | 0 => []
  | n + 1 => (n + 1) :: downFrom n

/-- Attempt to match the email regex
`\b[A-Za-z0-9._%+-]+@[A-Za-z0-9.-]+\.[A-Z|a-z]{2,}\b` anchored at the start of
`s`, where `prev` is the character immediately before `s` in the full text
(`none` at the start).  Greedy quantifiers with backtracking are realised by
trying candidate lengths longest-first; the first success is returned as the
matched substring together with the remaining text.  A `\b` assertion holds
when the wordness of the two neighbouring positions differs, out-of-string
counting as non-word. -/
def tryEmailAt (prev : Option Char) (s : List Char) : Option (List Char × List Char) :=
  match s with
  | [] => none
  | c :: _ =>
    if wordOpt prev == isWordChar c then none
    else
      (downFrom (s.takeWhile localChar).length).findSome? (fun k =>
        match s.drop k with
        | '@' :: r2 =>
          (downFrom (r2.takeWhile domainChar).length).findSome? (fun j =>
            match r2.drop j with
            | '.' :: r4 =>
              ((downFrom (r4.takeWhile tldChar).length).filter (fun t => 2 ≤ t)).findSome?
                (fun t =>
                  let r5 := r4.drop t
                  if wordOpt ((r4.take t).getLast?) == wordOpt r5.head? then none
                  else some (s.take (k + 1 + j + 1 + t), r5))
            | _ => none)
        | _ => none)

/-- The scanning loop of `re.findall`: try a match at every position, left to
right; after a match continue with the remaining text (non-overlapping
matches).  `fuel` bounds the recursion; every step consumes at least one
character, so `fuel = text.length` is sufficient. -/
def scanEmails : Nat → Option Char → List Char → List (List Char)
  | 0, _, _ => []
  | _ + 1, _, [] => []
  | fuel + 1, prev, c :: rest =>
    match tryEmailAt prev (c :: rest) with
    | some (m, r) => m :: scanEmails fuel m.getLast? r
    | none => scanEmails fuel (some c) rest

/-- `re.findall(email_pattern, text)` for the email pattern of `extract_emails`. -/
def findEmailMatches (text : List Char) : List (List Char) :=
  scanEmails text.length none text

/-- The de-duplication loop of `extract_emails`: append each element not yet
present, keeping the first occurrence of each. -/
def uniqueLoop {α : Type} [DecidableEq α] (acc : List α) : List α → List α
  | [] => acc
  | e :: rest => if e ∈ acc then uniqueLoop acc rest else uniqueLoop (acc ++ [e]) rest

/-- `extract_emails` from `pubmed_scraper/core/utils.py`: `if not text: return []`,
then `re.findall` followed by the order-preserving de-duplication loop. -/
def extract_emails (text : List Char) : List (List Char) :=
  if text = [] then []
  else uniqueLoop [] (findEmailMatches text)

/-- Canonical "distinct elements in first-seen order" (used to state what the
de-duplication loop computes). -/
def dedupKeepFirst {α : Type} [DecidableEq α] : List α → List α
  | [] => []
  | a :: l => a :: dedupKeepFirst (l.filter (fun x => x ≠ a))
termination_by l => l.length
decreasing_by
  simp only [List.length_cons]
  exact Nat.lt_succ_of_le (List.length_filter_le _ _)

/-! ### The date normalizer (`extract_publication_date` in `pubmed_scraper/core/parser.py`) -/

/-- Python `s.isdigit()` (ASCII digits): non-empty and all digits. -/
def pyIsDigit (s : List Char) : Bool :=
  !s.isEmpty && s.all Char.isDigit

/-- Python `s.zfill(w)` for unsigned strings (the source only applies it to
digit strings, so the sign-aware branch of `zfill` is never reached). -/
def pyZfill (w : Nat) (s : List Char) : List Char :=
  List.replicate (w - s.length) '0' ++ s

/-- Python `sep.join(parts)`. -/
def joinWith (sep : List Char) : List (List Char) → List Char
  | [] => []
  | [p] => p
  | p :: rest => p ++ sep ++ joinWith sep rest

/-- The `month_map` dictionary of `convert_month_name_to_number`. -/
def month_map : List (List Char × List Char) :=
  [("Jan".data, "1".data), ("Feb".data, "2".data), ("Mar".data, "3".data),
   ("Apr".data, "4".data), ("May".data, "5".data), ("Jun".data, "6".data),
   ("Jul".data, "7".data), ("Aug".data, "8".data), ("Sep".data, "9".data),
   ("Oct".data, "10".data), ("Nov".data, "11".data), ("Dec".data, "12".data)]

/-- The dictionary lookup `month_map.get(key)` (the keys are distinct, so
association-list lookup models the Python dict exactly). -/
def monthTableLookup (k : List Char) : Option (List Char) :=
  List.lookup k month_map

/-- `convert_month_name_to_number` from `pubmed_scraper/core/parser.py`:
`month_map.get(month_name[:3], month_name)`. -/
def convert_month_name_to_number (month_name : List Char) : List Char :=
  (monthTableLookup (month_name.take 3)).getD month_name

/-- The `date_parts` assembly of `extract_publication_date`, applied to the
year/month/day strings read from the date container (absent fields arrive as
the empty string, matching `findtext(...) or ""`). -/
def format_date (year month day : List Char) : List Char :=
  let parts1 : List (List Char) := if year = [] then [] else [year]
  let parts2 : List (List Char) :=
    if month = [] then parts1
    else
      let month_num := convert_month_name_to_number month
      parts1 ++ [if pyIsDigit month_num then pyZfill 2 month_num else month]
  let parts3 : List (List Char) :=
    if day = [] then parts2
    else parts2 ++ [if pyIsDigit day then pyZfill 2 day else day]
  joinWith "-".data parts3

/-- Modelled from the claim wording, for comparison with the source: join the
present fields with "-" in order year, month, day; a month whose first three
characters match the Jan..Dec table is replaced by its numeric value
zero-padded to width 2; a purely numeric month or day is zero-padded to width
2; all other month/day values and the year are kept unmodified. -/
def normalizeDate_spec (year month day : List Char) : List Char :=
  let monthPart :=
    match monthTableLookup (month.take 3) with
    | some v => pyZfill 2 v
    | none => if pyIsDigit month then pyZfill 2 month else month
  let dayPart := if pyIsDigit day then pyZfill 2 day else day
  joinWith "-".data
    ((if year = [] then [] else [year]) ++
     (if month = [] then [] else [monthPart]) ++
     (if day = [] then [] else [dayPart]))

/-! ### The document model and `parse_pubmed_records` / `parse_single_article` -/

mutual
/-- A parsed XML element (`xml.etree.ElementTree.Element`): tag, optional text,
and child elements.  Attributes and tail text are not used by the source and
are omitted. -/
inductive Elem where
  | mk (tag : List Char) (text : Option (List Char)) (children : ElemList)
/-- A list of elements (a mutual inductive so that the document walk is
structural recursion the kernel can evaluate). -/
inductive ElemList where
  | nil
  | cons (e : Elem) (rest : ElemList)
end

def ElemList.toList : ElemList → List Elem
  | .nil => []
  | .cons e rest => e :: rest.toList

def ElemList.ofList : List Elem → ElemList
  | [] => .nil
  | e :: r => .cons e (ofList r)

def Elem.tag : Elem → List Char
  | .mk t _ _ => t

def Elem.text : Elem → Option (List Char)
  | .mk _ tx _ => tx

def Elem.children : Elem → List Elem
  | .mk _ _ cs => cs.toList

mutual
/-- All proper descendants of an element in document (preorder) order: the
iteration order of `Element.iter`, which `findall(".//tag")` follows. -/
def Elem.descendants : Elem → List Elem
  | .mk _ _ cs => ElemList.preorder cs
def ElemList.preorder : ElemList → List Elem
  | .nil => []
  | .cons c rest => c :: Elem.descendants c ++ ElemList.preorder rest
end

/-- `element.findall(".//tag")`: all proper descendants with the given tag, in
document order (CPython's `prepare_descendant` iterates `elem.iter(tag)`
skipping the element itself). -/
def findall_desc (e : Elem) (tag : List Char) : List Elem :=
  e.descendants.filter (fun d => d.tag = tag)

/-- `element.find(".//tag")`: first descendant with the given tag. -/
def find_desc (e : Elem) (tag : List Char) : Option Elem :=
  (findall_desc e tag).head?

/-- `element.find("tag")`: first direct child with the given tag. -/
def findChild (e : Elem) (tag : List Char) : Option Elem :=
  (e.children.filter (fun d => d.tag = tag)).head?

/-- `extract_text` from `pubmed_scraper/core/parser.py`, applied to the result
of the embedded `find`: `found.text.strip() if found is not None and
found.text else None`.  (The `try/except` around the body cannot fire in this
pure model: `find` on an element tree does not raise.) -/
def extract_text (found : Option Elem) : Option (List Char) :=
  match found with
  | none => none
  | some f =>
    match f.text with
    | none => none
    | some t => if t = [] then none else some (pyStrip t)

/-- `pubdate_elem.findtext(tag) or ""`: the text of the first direct child
with the tag; both "no such child" and "child with no text" give the empty
string. -/
def findtext_or_empty (e : Elem) (tag : List Char) : List Char :=
  match findChild e tag with
  | none => []
  | some f => f.text.getD []

/-- `extract_publication_date` from `pubmed_scraper/core/parser.py`: find the
first `.//PubDate` descendant and assemble its Year/Month/Day fields via the
`date_parts` logic (`format_date`). -/
def extract_publication_date (article : Elem) : List Char :=
  match find_desc article "PubDate".data with
  | none => []
  | some pd =>
    format_date (findtext_or_empty pd "Year".data) (findtext_or_empty pd "Month".data)
      (findtext_or_empty pd "Day".data)

/-- `extract_emails_from_elements` from `pubmed_scraper/core/parser.py`,
applied to the node list selected by its xpath: for each element with truthy
text, extract the emails of that text. -/
def extract_emails_from_elements (nodes : List Elem) : List (List Char) :=
  nodes.flatMap (fun el =>
    match el.text with
    | none => []
    | some t => if t = [] then [] else extract_emails t)

/-- The node selection `.//AuthorList//Author//Email` (chained descendant
steps, as CPython's ElementPath chains them). -/
def author_email_nodes (a : Elem) : List Elem :=
  (findall_desc a "AuthorList".data).flatMap (fun l =>
    (findall_desc l "Author".data).flatMap (fun au => findall_desc au "Email".data))

/-- The node selection `.//DataBankList//DataBank//Name`. -/
def databank_name_nodes (a : Elem) : List Elem :=
  (findall_desc a "DataBankList".data).flatMap (fun l =>
    (findall_desc l "DataBank".data).flatMap (fun db => findall_desc db "Name".data))

/-- The author full name built in `parse_single_article`:
`[fore_name or initials, last_name]` filtered to truthy parts, joined with a
single space, stripped. -/
def author_full_name (author : Elem) : List Char :=
  let last_name := (extract_text (findChild author "LastName".data)).getD []
  let fore_name := (extract_text (findChild author "ForeName".data)).getD []
  let initials := (extract_text (findChild author "Initials".data)).getD []
  let first_part := if fore_name = [] then initials else fore_name
  pyStrip (joinWith " ".data (([first_part, last_name]).filter (fun p => p ≠ [])))

/-- The author's affiliation texts collected in `parse_single_article`: for
each `.//AffiliationInfo` descendant of the author, the truthy
`extract_text(aff_info, "Affiliation")`. -/
def author_affiliations (author : Elem) : List (List Char) :=
  (findall_desc author "AffiliationInfo".data).filterMap (fun info =>
    match extract_text (findChild info "Affiliation".data) with
    | none => none
    | some t => if t = [] then none else some t)

/-- The per-article accumulators of the author loop in `parse_single_article`
(`non_academic_authors`, `company_affiliations`, `emails`). -/
structure AuthState where
  non_academic_authors : List (List Char)
  company_affiliations : List (List Char)
  emails : List (List Char)

/-- The inner loop `for aff in author_affiliations: if
is_non_academic_affiliation(aff) and aff not in company_affiliations:
company_affiliations.append(aff)`. -/
def addCompanyAffiliations (comp : List (List Char)) (affs : List (List Char)) :
    List (List Char) :=
  affs.foldl
    (fun c aff =>
      if is_non_academic_affiliation aff = true ∧ aff ∉ c then c ++ [aff] else c)
    comp

/-- One iteration of the `for author in article.findall(".//Author")` loop of
`parse_single_article`. -/
def processAuthor (st : AuthState) (author : Elem) : AuthState :=
  let full_name := author_full_name author
  let affs := author_affiliations author
  let emails1 := st.emails ++ affs.flatMap extract_emails
  if (affs.any is_non_academic_affiliation) = true ∧ full_name ≠ [] then
    { non_academic_authors :=
        if full_name ∈ st.non_academic_authors then st.non_academic_authors
        else st.non_academic_authors ++ [full_name],
      company_affiliations := addCompanyAffiliations st.company_affiliations affs,
      emails := emails1 }
  else
    { st with emails := emails1 }

/-- The final author-loop state of `parse_single_article`. -/
def article_auth_state (article : Elem) : AuthState :=
  (findall_desc article "Author".data).foldl processAuthor ⟨[], [], []⟩

/-- `list(set(emails + corresponding_emails))` from `parse_single_article`:
membership and distinctness of a Python set; its enumeration order is
unspecified by the language, modelled here as first-seen order (all theorems
stated about this value are order-independent). -/
def article_all_emails (article : Elem) : List (List Char) :=
  uniqueLoop []
    ((article_auth_state article).emails ++
     (extract_emails_from_elements (author_email_nodes article) ++
      extract_emails_from_elements (databank_name_nodes article)))

/-- The output row assembled by `parse_single_article` (fixed six-key dict). -/
structure Record where
  pubmedID : List Char
  title : List Char
  publicationDate : List Char
  nonAcademicAuthors : List Char
  companyAffiliations : List Char
  correspondingEmail : List Char
deriving DecidableEq

/-- `parse_single_article` from `pubmed_scraper/core/parser.py`.  The body
never raises in this pure model and always returns a record. -/
def parse_single_article (article : Elem) : Record where
  pubmedID := (extract_text (find_desc article "PMID".data)).getD []
  title := (extract_text (find_desc article "ArticleTitle".data)).getD []
  publicationDate := extract_publication_date article
  nonAcademicAuthors := joinWith "; ".data (article_auth_state article).non_academic_authors
  companyAffiliations := joinWith "; ".data (article_auth_state article).company_affiliations
  correspondingEmail := joinWith "; ".data (article_all_emails article)

/-- The article loop of `parse_pubmed_records`: each article's extraction is
attempted; an exception (`Except.error`) skips only that article.  (`if
record:` is always true in the source: the returned dict always has six keys.)
The extractor is a parameter so that the skip behaviour of the `try/except`
can be stated for a failing extraction. -/
def collectRecords (extract : Elem → Except Unit Record) : List Elem → List Record
  | [] => []
  | a :: rest =>
    match extract a with
    | .ok r => r :: collectRecords extract rest
    | .error _ => collectRecords extract rest

/-- `parse_pubmed_records` from `pubmed_scraper/core/parser.py`.  The external
`ET.fromstring` (standard-library XML parsing, not repository code) is a
parameter returning `none` exactly when it raises `ET.ParseError`. -/
def parse_pubmed_records (fromstring : List Char → Option Elem) (xml_data : List Char) :
    List Record :=
  if pyStrip xml_data = [] then []
  else
    match fromstring xml_data with
    | none => []
    | some root =>
        collectRecords (fun a => Except.ok (parse_single_article a))
          (findall_desc root "PubmedArticle".data)

/-- From the spec's words (for comparison with the source): the texts of every
affiliation node anywhere under the article (an `Affiliation` field inside any
`AffiliationInfo` node, not restricted to author subtrees). -/
def spec_affiliation_texts (article : Elem) : List (List Char) :=
  (findall_desc article "AffiliationInfo".data).filterMap (fun info =>
    match extract_text (findChild info "Affiliation".data) with
    | none => none
    | some t => if t = [] then none else some t)

/-! ### Concrete document fixtures used by counterexamples and witnesses -/

/-- A record with all six fields empty. -/
def emptyRecord : Record :=
  ⟨[], [], [], [], [], []⟩

/-- An article node with no content at all. -/
def bareArticle : Elem :=
  Elem.mk "PubmedArticle".data none .nil

/-- A document root containing exactly the bare article. -/
def bareRoot : Elem :=
  Elem.mk "PubmedArticleSet".data none (.cons bareArticle .nil)

/-- An extractor that fails exactly on elements tagged `Bad` (a stand-in for
`parse_single_article` raising on one article). -/
def failOnBad : Elem → Except Unit Record :=
  fun a => if a.tag = "Bad".data then Except.error () else Except.ok (parse_single_article a)

/-- An article tagged `Bad` (made to fail under `failOnBad`). -/
def badArticle : Elem :=
  Elem.mk "Bad".data none .nil

/-- An author with a non-academic affiliation but no name fields at all. -/
def namelessAuthor : Elem :=
  Elem.mk "Author".data none
    (.cons (Elem.mk "AffiliationInfo".data none
      (.cons (Elem.mk "Affiliation".data (some "Novartis AG".data) .nil) .nil)) .nil)

/-- An article whose only author is the nameless Novartis author. -/
def namelessAuthorArticle : Elem :=
  Elem.mk "PubmedArticle".data none (.cons namelessAuthor .nil)

/-- An author "John Doe" affiliated with "Pfizer Inc.". -/
def pfizerAuthor : Elem :=
  Elem.mk "Author".data none
    (.cons (Elem.mk "LastName".data (some "Doe".data) .nil)
      (.cons (Elem.mk "ForeName".data (some "John".data) .nil)
        (.cons (Elem.mk "AffiliationInfo".data none
          (.cons (Elem.mk "Affiliation".data (some "Pfizer Inc.".data) .nil) .nil)) .nil)))

/-- An article whose only author is the Pfizer author. -/
def pfizerArticle : Elem :=
  Elem.mk "PubmedArticle".data none (.cons pfizerAuthor .nil)

/-- An article carrying an affiliation (with an email inside) that is not
below any author node. -/
def strayAffiliationArticle : Elem :=
  Elem.mk "PubmedArticle".data none
    (.cons (Elem.mk "AffiliationInfo".data none
      (.cons (Elem.mk "Affiliation".data (some "a@b.com".data) .nil) .nil)) .nil)

/-! ### Supporting lemmas about the string primitives -/

theorem isPrefixOf_all {w s : List Char} {p : Char → Bool}
    (h : w.isPrefixOf s = true) (hs : s.all p = true) : w.all p = true := by
  have hpre : w <+: s := List.isPrefixOf_iff_prefix.mp h
  rw [List.all_eq_true] at hs ⊢
  exact fun x hx => hs x (hpre.sublist.subset hx)

theorem containsSub_all {w s : List Char} {p : Char → Bool}
    (h : containsSub w s = true) (hs : s.all p = true) : w.all p = true := by
  induction s with
  | nil =>
    rw [containsSub, List.isEmpty_iff] at h
    subst h; rfl
  | cons c rest ih =>
    rw [containsSub, Bool.or_eq_true] at h
    rcases h with h | h
    · exact isPrefixOf_all h hs
    · rw [List.all_cons, Bool.and_eq_true] at hs
      exact ih h hs.2

theorem toLower_pyWhitespace {c : Char} (h : isPyWhitespace c = true) :
    isPyWhitespace (Char.toLower c) = true := by
  simp only [isPyWhitespace, Bool.or_eq_true, decide_eq_true_eq] at h
  rcases h with ((((h | h) | h) | h) | h) | h <;> subst h <;> decide

theorem lowerChars_all_ws {s : List Char} (hs : s.all isPyWhitespace = true) :
    (lowerChars s).all isPyWhitespace = true := by
  rw [lowerChars, List.all_map]
  rw [List.all_eq_true] at hs ⊢
  exact fun x hx => toLower_pyWhitespace (hs x hx)

theorem no_keyword_of_all_ws {L : List (List Char)} {s : List Char}
    (hL : L.all (fun k => k.any (fun c => !isPyWhitespace c)) = true)
    (hs : s.all isPyWhitespace = true) :
    L.any (fun k => containsSub k (lowerChars s)) = false := by
  by_contra hne
  rw [Bool.not_eq_false, List.any_eq_true] at hne
  obtain ⟨k, hk, hsub⟩ := hne
  have hkall : k.all isPyWhitespace = true := containsSub_all hsub (lowerChars_all_ws hs)
  have hkany := List.all_eq_true.mp hL k hk
  rw [List.any_eq_true] at hkany
  obtain ⟨c, hc, hcneg⟩ := hkany
  have := List.all_eq_true.mp hkall c hc
  rw [this] at hcneg
  simp at hcneg

theorem pyStrip_eq_nil_iff {s : List Char} :
    pyStrip s = [] ↔ s.all isPyWhitespace = true := by
  rw [pyStrip, List.reverse_eq_nil_iff, List.dropWhile_eq_nil_iff]
  constructor
  · intro h
    rw [List.all_eq_true]
    intro x hx
    have hx' : x ∈ List.takeWhile isPyWhitespace s ++ List.dropWhile isPyWhitespace s := by
      rw [List.takeWhile_append_dropWhile]; exact hx
    rcases List.mem_append.mp hx' with h1 | h2
    · exact List.mem_takeWhile_imp h1
    · exact h x (List.mem_reverse.mpr h2)
  · intro h x hx
    have hx' : x ∈ List.dropWhile isPyWhitespace s := List.mem_reverse.mp hx
    exact List.all_eq_true.mp h x ((List.dropWhile_sublist _).subset hx')

theorem containsWordAux_containsSub {w : List Char} {prev : Option Char} {s : List Char}
    (h : containsWordAux w prev s = true) : containsSub w s = true := by
  induction s generalizing prev with
  | nil =>
    rw [containsWordAux, boundaryMatchAt] at h
    simp only [Bool.and_eq_true] at h
    obtain ⟨⟨_, hp⟩, _⟩ := h
    cases w with
    | nil => rfl
    | cons a as =>
      rw [show (a :: as).isPrefixOf ([] : List Char) = false from rfl] at hp
      exact absurd hp (by decide)
  | cons c rest ih =>
    rw [containsWordAux, Bool.or_eq_true] at h
    rcases h with h | h
    · rw [boundaryMatchAt] at h
      simp only [Bool.and_eq_true] at h
      obtain ⟨⟨_, hp⟩, _⟩ := h
      rw [containsSub, hp, Bool.true_or]
    · rw [containsSub, ih h, Bool.or_true]

theorem containsWord_containsSub {w s : List Char}
    (h : containsWord w s = true) : containsSub w s = true :=
  containsWordAux_containsSub h

theorem has_corporate_indicator_imp_pharma {al : List Char}
    (h : has_corporate_indicator al = true) : has_pharma_keywords al = true := by
  rw [has_corporate_indicator, List.any_eq_true] at h
  obtain ⟨k, hk, hsub⟩ := h
  rw [has_pharma_keywords, List.any_eq_true]
  refine ⟨k, ?_, hsub⟩
  have hall : corporate_indicators.all
      (fun k => decide (k ∈ PHARMA_BIOTECH_KEYWORDS)) = true := by decide
  exact of_decide_eq_true (List.all_eq_true.mp hall k hk)

theorem has_corporate_pattern_imp_pharma {al : List Char}
    (h : has_corporate_pattern al = true) : has_pharma_keywords al = true := by
  rw [has_corporate_pattern, List.any_eq_true] at h
  obtain ⟨grp, hgrp, h2⟩ := h
  rw [List.any_eq_true] at h2
  obtain ⟨w, hw, hword⟩ := h2
  rw [has_pharma_keywords, List.any_eq_true]
  refine ⟨w, ?_, containsWord_containsSub hword⟩
  have hall : corporate_patterns.all
      (fun grp => grp.all (fun w => decide (w ∈ PHARMA_BIOTECH_KEYWORDS))) = true := by decide
  exact of_decide_eq_true (List.all_eq_true.mp (List.all_eq_true.mp hall grp hgrp) w hw)

theorem academic_keywords_not_ws :
    ACADEMIC_KEYWORDS.all (fun k => k.any (fun c => !isPyWhitespace c)) = true := by decide

theorem pharma_keywords_not_ws :
    PHARMA_BIOTECH_KEYWORDS.all (fun k => k.any (fun c => !isPyWhitespace c)) = true := by decide

theorem not_blank_of_academic {s : List Char}
    (ha : has_academic_keywords (lowerChars s) = true) : pyStrip s ≠ [] := by
  intro hnil
  have hws := pyStrip_eq_nil_iff.mp hnil
  have hfalse := no_keyword_of_all_ws academic_keywords_not_ws hws
  rw [has_academic_keywords] at ha
  rw [ha] at hfalse
  exact absurd hfalse (by decide)

example : is_non_academic_affiliation "Pfizer Inc.".data = true := by decide
example : is_non_academic_affiliation "Harvard University".data = false := by decide
example : is_non_academic_affiliation "Novartis AG".data = true := by decide
example : is_non_academic_affiliation "Cold Spring Harbor Laboratory".data = false := by decide
example : is_non_academic_affiliation "Pfizer Research Institute Inc.".data = true := by decide
example : is_non_academic_affiliation "   ".data = false := by decide
example : is_non_academic_affiliation "University incubator pharma".data = true := by decide
example : containsWord "inc".data "university incubator pharma".data = false := by decide

/-! ### Claim C1 -/

/-- C1 (counterexample): the claim states that, for a string containing both an
academic and a pharma/corporate term, classification returns true if and only
if a corporate-suffix token occurs as a standalone word-boundary-matched word.
The input "University incubator pharma" contains the academic term
"university" and the pharma term "pharma", contains no corporate-suffix token
as a standalone word, yet classifies as non-academic, because the source
checks the suffix tokens with plain substring containment ("inc" occurs inside
"incubator"). -/
theorem C1_counterexample :
    has_academic_keywords (lowerChars "University incubator pharma".data) = true ∧
    has_pharma_keywords (lowerChars "University incubator pharma".data) = true ∧
    spec_standalone_corporate_suffix (lowerChars "University incubator pharma".data) = false ∧
    is_non_academic_affiliation "University incubator pharma".data = true :=
  ⟨rfl, rfl, rfl, rfl⟩

/-- C1 (amended): for every affiliation string that contains at least one
academic term and at least one pharma/corporate term (case-insensitive
substring matching), classification returns true if and only if the string
additionally contains at least one corporate-suffix token as a plain
case-insensitive substring (not word-boundary matched); otherwise false. -/
theorem C1_suffix_tiebreak_is_substring (s : List Char)
    (ha : has_academic_keywords (lowerChars s) = true)
    (hp : has_pharma_keywords (lowerChars s) = true) :
    is_non_academic_affiliation s = has_corporate_indicator (lowerChars s) := by
  have hblank : ¬pyStrip s = [] := not_blank_of_academic ha
  simp only [is_non_academic_affiliation, if_neg hblank, ha, hp, if_true]

/-- C1 (witness): the amended theorem applied to "University Pharma Inc". -/
theorem C1_suffix_tiebreak_is_substring_witness :
    is_non_academic_affiliation "University Pharma Inc".data
      = has_corporate_indicator (lowerChars "University Pharma Inc".data) :=
  C1_suffix_tiebreak_is_substring "University Pharma Inc".data (by decide) (by decide)

/-! ### Claim C4 -/

/-- C4: for every affiliation string containing no academic term,
classification returns true if the string contains at least one
pharma/corporate term (case-insensitive substring) or matches one of the four
word-boundary regex alternation groups, and false otherwise; in particular a
string with no academic term and at least one corporate-suffix token or pharma
term classifies true. -/
theorem C4_no_academic_branch (s : List Char)
    (h : has_academic_keywords (lowerChars s) = false) :
    is_non_academic_affiliation s
        = (has_pharma_keywords (lowerChars s) || has_corporate_pattern (lowerChars s)) ∧
    ((has_corporate_indicator (lowerChars s) || has_pharma_keywords (lowerChars s)) = true →
      is_non_academic_affiliation s = true) := by
  have hmain : is_non_academic_affiliation s
      = (has_pharma_keywords (lowerChars s) || has_corporate_pattern (lowerChars s)) := by
    by_cases hblank : pyStrip s = []
    · have hws := pyStrip_eq_nil_iff.mp hblank
      have hpharma : has_pharma_keywords (lowerChars s) = false :=
        no_keyword_of_all_ws pharma_keywords_not_ws hws
      have hpat : has_corporate_pattern (lowerChars s) = false := by
        cases hc : has_corporate_pattern (lowerChars s) with
        | false => rfl
        | true => rw [has_corporate_pattern_imp_pharma hc] at hpharma; exact absurd hpharma (by decide)
      rw [is_non_academic_affiliation, if_pos hblank, hpharma, hpat]
      rfl
    · simp only [is_non_academic_affiliation, if_neg hblank, h]
      rfl
  refine ⟨hmain, fun hor => ?_⟩
  rw [Bool.or_eq_true] at hor
  have hpharma : has_pharma_keywords (lowerChars s) = true := by
    rcases hor with hind | hph
    · exact has_corporate_indicator_imp_pharma hind
    · exact hph
  rw [hmain, hpharma, Bool.true_or]

/-- C4 (witness): the theorem applied to "Novartis AG". -/
theorem C4_no_academic_branch_witness :
    is_non_academic_affiliation "Novartis AG".data = true :=
  (C4_no_academic_branch "Novartis AG".data (by decide)).2 (by decide)

/-! ### Claim C5 -/

/-- C5: classification returns false for every empty or whitespace-only
affiliation string, and for every affiliation string containing at least one
academic term but no pharma/corporate term. -/
theorem C5_blank_or_academic_only (s : List Char) :
    (s.all isPyWhitespace = true → is_non_academic_affiliation s = false) ∧
    (has_academic_keywords (lowerChars s) = true →
      has_pharma_keywords (lowerChars s) = false →
      is_non_academic_affiliation s = false) := by
  constructor
  · intro hws
    rw [is_non_academic_affiliation, if_pos (pyStrip_eq_nil_iff.mpr hws)]
  · intro ha hp
    have hblank : ¬pyStrip s = [] := not_blank_of_academic ha
    simp only [is_non_academic_affiliation, if_neg hblank, ha, hp]
    rfl

/-- C5 (witness): the theorem applied to a whitespace-only string and to
"Harvard University". -/
theorem C5_blank_or_academic_only_witness :
    is_non_academic_affiliation "   ".data = false ∧
    is_non_academic_affiliation "Harvard University".data = false :=
  ⟨(C5_blank_or_academic_only "   ".data).1 (by decide),
   (C5_blank_or_academic_only "Harvard University".data).2 (by decide) (by decide)⟩

/-! ### Claim C7 -/

theorem mem_dedupKeepFirst {α : Type} [DecidableEq α] {a : α} {l : List α} :
    a ∈ dedupKeepFirst l ↔ a ∈ l := by
  induction l using dedupKeepFirst.induct with
  | case1 => simp [dedupKeepFirst]
  | case2 b l ih =>
    rw [dedupKeepFirst]
    simp only [List.mem_cons, ih, List.mem_filter, decide_eq_true_eq]
    constructor
    · rintro (rfl | ⟨hmem, _⟩)
      · exact Or.inl rfl
      · exact Or.inr hmem
    · rintro (rfl | hmem)
      · exact Or.inl rfl
      · by_cases hab : a = b
        · exact Or.inl hab
        · exact Or.inr ⟨hmem, hab⟩

theorem dedupKeepFirst_nodup {α : Type} [DecidableEq α] (l : List α) :
    (dedupKeepFirst l).Nodup := by
  induction l using dedupKeepFirst.induct with
  | case1 => simp [dedupKeepFirst]
  | case2 b l ih =>
    rw [dedupKeepFirst]
    refine List.nodup_cons.mpr ⟨?_, ih⟩
    intro hmem
    have hm := mem_dedupKeepFirst.mp hmem
    rw [List.mem_filter] at hm
    simp at hm

theorem uniqueLoop_eq {α : Type} [DecidableEq α] :
    ∀ (l acc : List α),
      uniqueLoop acc l = acc ++ dedupKeepFirst (l.filter (fun x => x ∉ acc)) := by
  intro l
  induction l with
  | nil => intro acc; simp [uniqueLoop, dedupKeepFirst]
  | cons e rest ih =>
    intro acc
    rw [uniqueLoop, List.filter_cons]
    by_cases he : e ∈ acc
    · have hd : decide (e ∉ acc) = false := by simp [he]
      rw [if_pos he, hd]
      simp only [Bool.false_eq_true, if_false]
      exact ih acc
    · have hd : decide (e ∉ acc) = true := by simp [he]
      rw [if_neg he, hd]
      simp only [if_true]
      rw [ih (acc ++ [e])]
      have hstep : dedupKeepFirst (e :: rest.filter (fun x => decide (x ∉ acc)))
          = e :: dedupKeepFirst ((rest.filter (fun x => decide (x ∉ acc))).filter
              (fun x => x ≠ e)) := by
        simp only [dedupKeepFirst]
      rw [hstep, List.filter_filter, List.append_assoc, List.singleton_append]
      congr 2
      refine congrArg dedupKeepFirst (List.filter_congr ?_)
      intro x _
      by_cases h1 : x = e <;> by_cases h2 : x ∈ acc <;> simp [h1, h2]

/-- C7: `extract_emails` returns the distinct matches of the email pattern in
first-seen order: it equals the canonical first-seen de-duplication of the
`re.findall` match list, its result has no duplicates, its members are exactly
the matches, a duplicated email appears only once
(`"a@b.com x a@b.com"` gives a single entry), and empty input yields the empty
sequence. -/
theorem C7_extract_emails_dedup (t : List Char) :
    extract_emails t = dedupKeepFirst (findEmailMatches t) ∧
    (extract_emails t).Nodup ∧
    (∀ e, e ∈ extract_emails t ↔ e ∈ findEmailMatches t) ∧
    extract_emails "a@b.com x a@b.com".data = ["a@b.com".data] ∧
    extract_emails [] = [] := by
  have hmain : extract_emails t = dedupKeepFirst (findEmailMatches t) := by
    by_cases ht : t = []
    · subst ht
      simp [extract_emails, findEmailMatches, scanEmails, dedupKeepFirst]
    · rw [extract_emails, if_neg ht, uniqueLoop_eq, List.nil_append]
      congr 1
      exact List.filter_eq_self.mpr (fun a _ => by simp)
  refine ⟨hmain, ?_, ?_, ?_, rfl⟩
  · rw [hmain]; exact dedupKeepFirst_nodup _
  · intro e; rw [hmain]; exact mem_dedupKeepFirst
  · rfl

/-! ### Claim C6 -/

theorem lookup_eq_some_mem {α β : Type} [BEq α] [LawfulBEq α]
    {l : List (α × β)} {a : α} {b : β}
    (h : List.lookup a l = some b) : (a, b) ∈ l := by
  induction l with
  | nil => exact Option.noConfusion h
  | cons p rest ih =>
    obtain ⟨k, c⟩ := p
    rw [List.lookup] at h
    cases hak : a == k with
    | true =>
      simp only [hak] at h
      injection h with h
      subst h
      have hk : a = k := eq_of_beq hak
      subst hk
      exact List.mem_cons_self _ _
    | false =>
      simp only [hak] at h
      exact List.mem_cons_of_mem _ (ih h)

theorem monthTableLookup_isDigit {k v : List Char} (h : monthTableLookup k = some v) :
    pyIsDigit v = true := by
  rw [monthTableLookup] at h
  have hm := lookup_eq_some_mem h
  have hall : month_map.all (fun p => pyIsDigit p.2) = true := by decide
  exact List.all_eq_true.mp hall _ hm

theorem monthTableLookup_digit_none {m : List Char} (h : pyIsDigit m = true) :
    monthTableLookup (m.take 3) = none := by
  have hall : (m.take 3).all Char.isDigit = true := by
    rw [pyIsDigit, Bool.and_eq_true] at h
    exact List.all_eq_true.mpr
      (fun x hx => List.all_eq_true.mp h.2 x ((List.take_sublist _ _).subset hx))
  cases hl : monthTableLookup (m.take 3) with
  | none => rfl
  | some v =>
    exfalso
    rw [monthTableLookup] at hl
    have hm := lookup_eq_some_mem hl
    have hkeys : month_map.all (fun p => p.1.any (fun c => !c.isDigit)) = true := by decide
    have hk := List.all_eq_true.mp hkeys _ hm
    rw [List.any_eq_true] at hk
    obtain ⟨c, hc, hcnd⟩ := hk
    have hcd := List.all_eq_true.mp hall c hc
    rw [hcd] at hcnd
    exact absurd hcnd (by decide)

theorem format_date_month_part (m : List Char) :
    (if pyIsDigit (convert_month_name_to_number m)
       then pyZfill 2 (convert_month_name_to_number m) else m)
      = (match monthTableLookup (m.take 3) with
         | some v => pyZfill 2 v
         | none => if pyIsDigit m then pyZfill 2 m else m) := by
  rw [convert_month_name_to_number]
  cases htab : monthTableLookup (m.take 3) with
  | some v => simp only [Option.getD_some, if_pos (monthTableLookup_isDigit htab)]
  | none => simp only [Option.getD_none]

/-- C6: the date assembly joins the present year/month/day fields with "-" in
that order, omitting absent fields; a month whose first three characters match
the Jan..Dec table is replaced by its numeric value zero-padded to width 2; a
purely numeric month or day is zero-padded to width 2; other month/day values
and the year are kept unmodified.  In particular 2023/"Jul"/"01" gives
"2023-07-01", fully numeric fields give "YYYY-MM-DD", year and day without
month give "YYYY-DD", year only gives "YYYY", and no fields give "". -/
theorem C6_format_date (y m d : List Char) :
    format_date y m d = normalizeDate_spec y m d ∧
    format_date "2023".data "Jul".data "01".data = "2023-07-01".data ∧
    (pyIsDigit y = true → pyIsDigit m = true → pyIsDigit d = true →
      format_date y m d = y ++ "-".data ++ pyZfill 2 m ++ "-".data ++ pyZfill 2 d) ∧
    (y ≠ [] → d ≠ [] → format_date y [] d
        = y ++ "-".data ++ (if pyIsDigit d then pyZfill 2 d else d)) ∧
    format_date "2023".data [] [] = "2023".data ∧
    format_date [] [] [] = [] := by
  refine ⟨?_, by decide, ?_, ?_, by decide, rfl⟩
  · rw [format_date, normalizeDate_spec]
    by_cases hy : y = [] <;> by_cases hm : m = [] <;> by_cases hd : d = [] <;>
      simp [hy, hm, hd, format_date_month_part, joinWith]
  · intro hy hm hd
    have hy' : y ≠ [] := by intro h; rw [h] at hy; exact absurd hy (by decide)
    have hm' : m ≠ [] := by intro h; rw [h] at hm; exact absurd hm (by decide)
    have hd' : d ≠ [] := by intro h; rw [h] at hd; exact absurd hd (by decide)
    rw [format_date]
    simp only [if_neg hy', if_neg hm', if_neg hd']
    rw [convert_month_name_to_number, monthTableLookup_digit_none hm, Option.getD_none,
      if_pos hm, if_pos hd]
    simp [joinWith, List.append_assoc]
  · intro hy hd
    rw [format_date]
    simp only [if_neg hy, if_neg hd, if_pos rfl]
    simp [joinWith, List.append_assoc]

/-- C6 (witness): fully numeric fields and the year-day quirk at concrete
inputs. -/
theorem C6_format_date_witness :
    format_date "2023".data "07".data "01".data = "2023-07-01".data ∧
    format_date "2023".data [] "05".data = "2023-05".data := by
  constructor
  · have h := (C6_format_date "2023".data "07".data "01".data).2.2.1
      (by decide) (by decide) (by decide)
    rw [h]; rfl
  · have h := (C6_format_date "2023".data [] "05".data).2.2.2.1
      (by decide) (by decide)
    rw [h]; rfl

/-! ### Claim C10 -/

theorem dropWhile_head_false {p : Char → Bool} :
    ∀ {l : List Char} {c : Char} {rest : List Char},
      l.dropWhile p = c :: rest → p c = false := by
  intro l
  induction l with
  | nil => intro c rest h; exact List.noConfusion h
  | cons a t ih =>
    intro c rest h
    rw [List.dropWhile_cons] at h
    by_cases hp : p a = true
    · rw [if_pos hp] at h; exact ih h
    · rw [if_neg hp] at h
      injection h with h1 _
      subst h1
      exact Bool.not_eq_true _ ▸ hp

theorem dropWhile_dropWhile {p : Char → Bool} (l : List Char) :
    (l.dropWhile p).dropWhile p = l.dropWhile p := by
  cases hd : l.dropWhile p with
  | nil => rfl
  | cons c rest =>
    have hc := dropWhile_head_false hd
    rw [List.dropWhile_cons, hc]
    simp only [Bool.false_eq_true, if_false]

theorem pyStrip_pyStrip (s : List Char) : pyStrip (pyStrip s) = pyStrip s := by
  have hv : (pyStrip s).reverse
      = (s.dropWhile isPyWhitespace).reverse.dropWhile isPyWhitespace := by
    rw [pyStrip, List.reverse_reverse]
  have htrail : (pyStrip s).reverse.dropWhile isPyWhitespace = (pyStrip s).reverse := by
    rw [hv]
    exact dropWhile_dropWhile _
  have hlead : (pyStrip s).dropWhile isPyWhitespace = pyStrip s := by
    cases hd : pyStrip s with
    | nil => rfl
    | cons c rest =>
      have hpre : (c :: rest) <+: s.dropWhile isPyWhitespace := by
        rw [← hd, pyStrip]
        have h1 : ((s.dropWhile isPyWhitespace).reverse.dropWhile isPyWhitespace)
            <:+ (s.dropWhile isPyWhitespace).reverse := List.dropWhile_suffix _
        have h2 := List.reverse_prefix.mpr h1
        rwa [List.reverse_reverse] at h2
      obtain ⟨t, ht⟩ := hpre
      rw [List.cons_append] at ht
      have hc : isPyWhitespace c = false := dropWhile_head_false ht.symm
      rw [List.dropWhile_cons, hc]
      simp only [Bool.false_eq_true, if_false]
  calc pyStrip (pyStrip s)
      = (((pyStrip s).dropWhile isPyWhitespace).reverse.dropWhile isPyWhitespace).reverse :=
        rfl
    _ = ((pyStrip s).reverse.dropWhile isPyWhitespace).reverse := by rw [hlead]
    _ = (pyStrip s).reverse.reverse := by rw [htrail]
    _ = pyStrip s := List.reverse_reverse _

theorem extract_text_getD (o : Option Elem) :
    (extract_text o).getD []
      = (match o with
         | none => []
         | some f => pyStrip (f.text.getD [])) := by
  cases o with
  | none => rfl
  | some f =>
    simp only [extract_text]
    cases htx : f.text with
    | none => rfl
    | some t =>
      by_cases ht : t = []
      · subst ht; rfl
      · show (if t = [] then none else some (pyStrip t)).getD []
            = pyStrip ((some t).getD [])
        rw [if_neg ht, Option.getD_some, Option.getD_some]

/-- C10: the record's PubmedID and Title are the first-matching descendant's
text with leading and trailing whitespace removed, and the empty string when
the element is absent or has no text (the `try/except` in `extract_text`
cannot fire in this pure model); the emitted id and title never carry
surrounding whitespace (stripping them again changes nothing). -/
theorem C10_id_title_first_match_stripped (article : Elem) :
    (parse_single_article article).pubmedID
        = (match find_desc article "PMID".data with
           | none => []
           | some f => pyStrip (f.text.getD [])) ∧
    (parse_single_article article).title
        = (match find_desc article "ArticleTitle".data with
           | none => []
           | some f => pyStrip (f.text.getD [])) ∧
    pyStrip (parse_single_article article).pubmedID
        = (parse_single_article article).pubmedID ∧
    pyStrip (parse_single_article article).title
        = (parse_single_article article).title := by
  have h1 := extract_text_getD (find_desc article "PMID".data)
  have h2 := extract_text_getD (find_desc article "ArticleTitle".data)
  refine ⟨h1, h2, ?_, ?_⟩
  · have h1' : (parse_single_article article).pubmedID
        = (match find_desc article "PMID".data with
           | none => []
           | some f => pyStrip (f.text.getD [])) := h1
    rw [h1']
    cases find_desc article "PMID".data with
    | none => rfl
    | some f => exact pyStrip_pyStrip _
  · have h2' : (parse_single_article article).title
        = (match find_desc article "ArticleTitle".data with
           | none => []
           | some f => pyStrip (f.text.getD [])) := h2
    rw [h2']
    cases find_desc article "ArticleTitle".data with
    | none => rfl
    | some f => exact pyStrip_pyStrip _

/-! ### Claims C3 and C9 -/

theorem collectRecords_ok (f : Elem → Record) :
    ∀ l : List Elem, collectRecords (fun a => Except.ok (f a)) l = l.map f := by
  intro l
  induction l with
  | nil => rfl
  | cons a rest ih =>
    show f a :: collectRecords (fun a => Except.ok (f a)) rest = f a :: rest.map f
    rw [ih]

theorem collectRecords_append (extract : Elem → Except Unit Record) :
    ∀ l1 l2 : List Elem,
      collectRecords extract (l1 ++ l2)
        = collectRecords extract l1 ++ collectRecords extract l2 := by
  intro l1
  induction l1 with
  | nil => intro l2; rfl
  | cons a rest ih =>
    intro l2
    rw [List.cons_append]
    show (match extract a with
          | Except.ok r => r :: collectRecords extract (rest ++ l2)
          | Except.error _ => collectRecords extract (rest ++ l2))
        = (match extract a with
          | Except.ok r => r :: collectRecords extract rest
          | Except.error _ => collectRecords extract rest) ++ collectRecords extract l2
    cases extract a with
    | ok r => rw [ih, List.cons_append]
    | error e => exact ih l2

/-- C3: the embedded parse is total (it never raises): blank input yields the
empty sequence; a document on which the structural parser fails
(`ET.fromstring` raising `ParseError`, modelled as `none`) yields the empty
sequence; and an extraction failure on one article skips exactly that article,
with the records of the articles before and after it still produced. -/
theorem C3_parse_error_recovery :
    (∀ (fromstring : List Char → Option Elem) (xml : List Char),
      pyStrip xml = [] → parse_pubmed_records fromstring xml = []) ∧
    (∀ (fromstring : List Char → Option Elem) (xml : List Char),
      fromstring xml = none → parse_pubmed_records fromstring xml = []) ∧
    (∀ (extract : Elem → Except Unit Record) (pre : List Elem) (a : Elem) (post : List Elem),
      extract a = Except.error () →
        collectRecords extract (pre ++ a :: post)
          = collectRecords extract pre ++ collectRecords extract post) := by
  refine ⟨?_, ?_, ?_⟩
  · intro fs xml h
    rw [parse_pubmed_records, if_pos h]
  · intro fs xml h
    rw [parse_pubmed_records]
    by_cases hb : pyStrip xml = []
    · rw [if_pos hb]
    · rw [if_neg hb, h]
  · intro extract pre a post herr
    rw [collectRecords_append]
    congr 1
    show (match extract a with
          | Except.ok r => r :: collectRecords extract post
          | Except.error _ => collectRecords extract post)
        = collectRecords extract post
    rw [herr]

/-- C3 (witness): blank input, a failing structural parse, and a failing
middle article, at concrete values. -/
theorem C3_parse_error_recovery_witness :
    parse_pubmed_records (fun _ => some bareRoot) "   ".data = [] ∧
    parse_pubmed_records (fun _ => none) "<bad".data = [] ∧
    collectRecords failOnBad ([bareArticle] ++ badArticle :: [bareArticle])
      = collectRecords failOnBad [bareArticle] ++ collectRecords failOnBad [bareArticle] :=
  ⟨C3_parse_error_recovery.1 _ _ (by decide),
   C3_parse_error_recovery.2.1 _ _ rfl,
   C3_parse_error_recovery.2.2 failOnBad [bareArticle] badArticle [bareArticle] rfl⟩

/-- C9: for every successfully parsed document, exactly one record is produced
per article node (extraction is total in this pure model, so no article is
skipped), even when every field of the record is empty: the bare article node
yields the all-empty record, and a document containing only the bare article
still yields one record. -/
theorem C9_record_per_article :
    (∀ (fromstring : List Char → Option Elem) (xml : List Char) (root : Elem),
      pyStrip xml ≠ [] → fromstring xml = some root →
        parse_pubmed_records fromstring xml
          = (findall_desc root "PubmedArticle".data).map parse_single_article) ∧
    parse_single_article bareArticle = emptyRecord ∧
    (∀ (fromstring : List Char → Option Elem) (xml : List Char),
      pyStrip xml ≠ [] → fromstring xml = some bareRoot →
        parse_pubmed_records fromstring xml = [emptyRecord]) := by
  have hmain : ∀ (fromstring : List Char → Option Elem) (xml : List Char) (root : Elem),
      pyStrip xml ≠ [] → fromstring xml = some root →
        parse_pubmed_records fromstring xml
          = (findall_desc root "PubmedArticle".data).map parse_single_article := by
    intro fs xml root hb hf
    rw [parse_pubmed_records, if_neg hb, hf]
    exact collectRecords_ok _ _
  refine ⟨hmain, rfl, ?_⟩
  intro fs xml hb hf
  rw [hmain fs xml bareRoot hb hf]
  rfl

/-- C9 (witness): a concrete document whose only article node is empty yields
exactly the all-empty record. -/
theorem C9_record_per_article_witness :
    parse_pubmed_records (fun _ => some bareRoot) "<doc>".data = [emptyRecord] :=
  C9_record_per_article.2.2 (fun _ => some bareRoot) "<doc>".data (by decide) rfl

/-! ### Claim C2 -/

theorem addCompanyAffiliations_sound :
    ∀ (affs comp : List (List Char)),
      (∀ aff ∈ comp, is_non_academic_affiliation aff = true) →
      ∀ aff ∈ addCompanyAffiliations comp affs, is_non_academic_affiliation aff = true := by
  intro affs
  induction affs with
  | nil => intro comp h; exact h
  | cons a rest ih =>
    intro comp h
    rw [addCompanyAffiliations, List.foldl_cons]
    apply ih
    intro aff haff
    by_cases hc : is_non_academic_affiliation a = true ∧ a ∉ comp
    · rw [if_pos hc] at haff
      rcases List.mem_append.mp haff with h1 | h2
      · exact h aff h1
      · rw [List.mem_singleton] at h2
        subst h2
        exact hc.1
    · rw [if_neg hc] at haff
      exact h aff haff

theorem processAuthor_names_mem (st : AuthState) (a : Elem) (n : List Char) :
    n ∈ (processAuthor st a).non_academic_authors ↔
      (n ∈ st.non_academic_authors ∨
        ((author_affiliations a).any is_non_academic_affiliation = true ∧
          author_full_name a ≠ [] ∧ n = author_full_name a)) := by
  simp only [processAuthor]
  by_cases hc : ((author_affiliations a).any is_non_academic_affiliation) = true ∧
      author_full_name a ≠ []
  · rw [if_pos hc]
    by_cases hmem : author_full_name a ∈ st.non_academic_authors
    · rw [if_pos hmem]
      constructor
      · intro h; exact Or.inl h
      · rintro (h | ⟨_, _, rfl⟩)
        · exact h
        · exact hmem
    · rw [if_neg hmem]
      rw [List.mem_append, List.mem_singleton]
      constructor
      · rintro (h | rfl)
        · exact Or.inl h
        · exact Or.inr ⟨hc.1, hc.2, rfl⟩
      · rintro (h | ⟨_, _, rfl⟩)
        · exact Or.inl h
        · exact Or.inr rfl
  · rw [if_neg hc]
    constructor
    · exact Or.inl
    · rintro (h | ⟨h1, h2, _⟩)
      · exact h
      · exact absurd ⟨h1, h2⟩ hc

theorem foldl_processAuthor_names (authors : List Elem) :
    ∀ (st : AuthState) (n : List Char),
      n ∈ (authors.foldl processAuthor st).non_academic_authors ↔
        n ∈ st.non_academic_authors ∨
          (n ≠ [] ∧ ∃ au ∈ authors, author_full_name au = n ∧
            (author_affiliations au).any is_non_academic_affiliation = true) := by
  induction authors with
  | nil =>
    intro st n
    rw [List.foldl_nil]
    constructor
    · exact Or.inl
    · rintro (h | ⟨_, au, hau, _, _⟩)
      · exact h
      · exact absurd hau (List.not_mem_nil au)
  | cons a rest ih =>
    intro st n
    rw [List.foldl_cons, ih (processAuthor st a) n, processAuthor_names_mem]
    constructor
    · rintro ((h | ⟨hany, hne, rfl⟩) | ⟨hn, au, hau, hfull, hany⟩)
      · exact Or.inl h
      · exact Or.inr ⟨hne, a, List.mem_cons_self a rest, rfl, hany⟩
      · exact Or.inr ⟨hn, au, List.mem_cons_of_mem a hau, hfull, hany⟩
    · rintro (h | ⟨hn, au, hau, hfull, hany⟩)
      · exact Or.inl (Or.inl h)
      · rcases List.mem_cons.mp hau with rfl | hau2
        · exact Or.inl (Or.inr ⟨hany, hfull.symm ▸ hn, hfull.symm⟩)
        · exact Or.inr ⟨hn, au, hau2, hfull, hany⟩

theorem processAuthor_names_nodup {st : AuthState} (a : Elem)
    (h : st.non_academic_authors.Nodup) :
    (processAuthor st a).non_academic_authors.Nodup := by
  simp only [processAuthor]
  by_cases hc : ((author_affiliations a).any is_non_academic_affiliation) = true ∧
      author_full_name a ≠ []
  · rw [if_pos hc]
    by_cases hmem : author_full_name a ∈ st.non_academic_authors
    · rw [if_pos hmem]; exact h
    · rw [if_neg hmem]
      rw [List.nodup_append]
      exact ⟨h, List.nodup_cons.mpr ⟨List.not_mem_nil _, List.nodup_nil⟩,
        fun x hx hx1 => hmem ((List.mem_singleton.mp hx1) ▸ hx)⟩
  · rw [if_neg hc]; exact h

theorem foldl_processAuthor_nodup (authors : List Elem) :
    ∀ st : AuthState, st.non_academic_authors.Nodup →
      ((authors.foldl processAuthor st).non_academic_authors).Nodup := by
  induction authors with
  | nil => intro st h; exact h
  | cons a rest ih =>
    intro st h
    rw [List.foldl_cons]
    exact ih _ (processAuthor_names_nodup a h)

theorem processAuthor_company_sound {st : AuthState} (a : Elem)
    (h : ∀ aff ∈ st.company_affiliations, is_non_academic_affiliation aff = true) :
    ∀ aff ∈ (processAuthor st a).company_affiliations,
      is_non_academic_affiliation aff = true := by
  simp only [processAuthor]
  by_cases hc : ((author_affiliations a).any is_non_academic_affiliation) = true ∧
      author_full_name a ≠ []
  · rw [if_pos hc]
    exact addCompanyAffiliations_sound (author_affiliations a) st.company_affiliations h
  · rw [if_neg hc]; exact h

theorem foldl_processAuthor_company (authors : List Elem) :
    ∀ st : AuthState,
      (∀ aff ∈ st.company_affiliations, is_non_academic_affiliation aff = true) →
      ∀ aff ∈ (authors.foldl processAuthor st).company_affiliations,
        is_non_academic_affiliation aff = true := by
  induction authors with
  | nil => intro st h; exact h
  | cons a rest ih =>
    intro st h
    rw [List.foldl_cons]
    exact ih _ (processAuthor_company_sound a h)

/-- C2 (counterexample): the claim says the Non-academic Author(s) field
contains exactly the full names of the authors having at least one
non-academic affiliation; but the source skips an author whose assembled full
name is empty.  In `namelessAuthorArticle` the only author has a non-academic
affiliation ("Novartis AG") and an empty full name, yet the produced author
list is empty, so the author's full name is missing from it. -/
theorem C2_counterexample :
    (∃ au ∈ findall_desc namelessAuthorArticle "Author".data,
      (author_affiliations au).any is_non_academic_affiliation = true ∧
        author_full_name au = []) ∧
    (article_auth_state namelessAuthorArticle).non_academic_authors = [] ∧
    (parse_single_article namelessAuthorArticle).nonAcademicAuthors = [] := by
  refine ⟨⟨namelessAuthor, ?_, rfl, rfl⟩, rfl, rfl⟩
  rw [show findall_desc namelessAuthorArticle "Author".data = [namelessAuthor] from rfl]
  exact List.mem_singleton_self _

/-- C2 (amended): the Non-academic Author(s) field is the semicolon join of a
duplicate-free list containing exactly the non-empty full names of the
article's authors that have at least one affiliation classified non-academic
(ANY-match over the author's affiliations); the Company Affiliation(s) field
is the semicolon join of a list whose members all classify non-academic
individually. -/
theorem C2_nonacademic_names_exact (article : Elem) :
    (parse_single_article article).nonAcademicAuthors
        = joinWith "; ".data (article_auth_state article).non_academic_authors ∧
    ((article_auth_state article).non_academic_authors).Nodup ∧
    (∀ n, n ∈ (article_auth_state article).non_academic_authors ↔
      (n ≠ [] ∧ ∃ au ∈ findall_desc article "Author".data,
        author_full_name au = n ∧
          (author_affiliations au).any is_non_academic_affiliation = true)) ∧
    (parse_single_article article).companyAffiliations
        = joinWith "; ".data (article_auth_state article).company_affiliations ∧
    (∀ aff ∈ (article_auth_state article).company_affiliations,
      is_non_academic_affiliation aff = true) := by
  refine ⟨rfl, ?_, ?_, rfl, ?_⟩
  · exact foldl_processAuthor_nodup _ _ List.nodup_nil
  · intro n
    rw [article_auth_state, foldl_processAuthor_names]
    constructor
    · rintro (h | h)
      · exact absurd h (List.not_mem_nil n)
      · exact h
    · exact Or.inr
  · exact foldl_processAuthor_company _ _ (fun aff h => absurd h (List.not_mem_nil aff))

/-- C2 (witness): in the Pfizer article the author's name is listed, and the
company-affiliation soundness instantiates to the concrete "Pfizer Inc."
string. -/
theorem C2_nonacademic_names_exact_witness :
    is_non_academic_affiliation "Pfizer Inc.".data = true ∧
    "John Doe".data ∈ (article_auth_state pfizerArticle).non_academic_authors :=
  ⟨(C2_nonacademic_names_exact pfizerArticle).2.2.2.2 "Pfizer Inc.".data
      (by rw [show (article_auth_state pfizerArticle).company_affiliations
            = ["Pfizer Inc.".data] from rfl]
          exact List.mem_singleton_self _),
   ((C2_nonacademic_names_exact pfizerArticle).2.2.1 "John Doe".data).mpr
      ⟨by decide,
       pfizerAuthor,
       by rw [show findall_desc pfizerArticle "Author".data = [pfizerAuthor] from rfl]
          exact List.mem_singleton_self _,
       rfl, rfl⟩⟩

/-! ### Claim C8 -/

theorem processAuthor_emails (st : AuthState) (a : Elem) :
    (processAuthor st a).emails
      = st.emails ++ (author_affiliations a).flatMap extract_emails := by
  simp only [processAuthor]
  by_cases hc : ((author_affiliations a).any is_non_academic_affiliation) = true ∧
      author_full_name a ≠ []
  · rw [if_pos hc]
  · rw [if_neg hc]

theorem foldl_processAuthor_emails (authors : List Elem) :
    ∀ st : AuthState,
      (authors.foldl processAuthor st).emails
        = st.emails
          ++ authors.flatMap (fun au => (author_affiliations au).flatMap extract_emails) := by
  induction authors with
  | nil => intro st; rw [List.foldl_nil, List.flatMap_nil, List.append_nil]
  | cons a rest ih =>
    intro st
    rw [List.foldl_cons, ih, processAuthor_emails, List.flatMap_cons, List.append_assoc]

/-- C8 (counterexample): the claim says emails are collected from every
affiliation text anywhere under the article; the source only reads
affiliations below `.//Author` nodes (and author emails below
`.//AuthorList//Author//Email`, data-bank names below
`.//DataBankList//DataBank//Name`).  `strayAffiliationArticle` carries an
affiliation text that is itself an email address but lies outside any author
node: the discovered email does not appear in the record's email field, which
stays empty. -/
theorem C8_counterexample :
    spec_affiliation_texts strayAffiliationArticle = ["a@b.com".data] ∧
    extract_emails "a@b.com".data = ["a@b.com".data] ∧
    article_all_emails strayAffiliationArticle = [] ∧
    (parse_single_article strayAffiliationArticle).correspondingEmail = [] :=
  ⟨rfl, rfl, rfl, rfl⟩

/-- C8 (amended): the record's Corresponding Author Email field is the
semicolon join of a duplicate-free collection (order unspecified) holding the
union of the emails extracted from (a) every `.//AuthorList//Author//Email`
field, (b) every `.//DataBankList//DataBank//Name` field, and (c) every
affiliation text below the article's `.//Author` nodes; each discovered email
appears exactly once. -/
theorem C8_email_union (article : Elem) :
    (parse_single_article article).correspondingEmail
        = joinWith "; ".data (article_all_emails article) ∧
    (article_all_emails article).Nodup ∧
    (∀ e, e ∈ article_all_emails article ↔
      (e ∈ (findall_desc article "Author".data).flatMap
          (fun au => (author_affiliations au).flatMap extract_emails) ∨
       e ∈ extract_emails_from_elements (author_email_nodes article) ∨
       e ∈ extract_emails_from_elements (databank_name_nodes article))) := by
  refine ⟨rfl, ?_, ?_⟩
  · rw [article_all_emails, uniqueLoop_eq, List.nil_append]
    exact dedupKeepFirst_nodup _
  · intro e
    have hfil : ∀ l : List (List Char),
        l.filter (fun x => decide (x ∉ ([] : List (List Char)))) = l :=
      fun l => List.filter_eq_self.mpr (fun a _ => by simp)
    rw [article_all_emails, uniqueLoop_eq, List.nil_append, mem_dedupKeepFirst, hfil]
    rw [article_auth_state, foldl_processAuthor_emails]
    have hinit : (⟨[], [], []⟩ : AuthState).emails = [] := rfl
    rw [hinit, List.nil_append, List.mem_append, List.mem_append]
